import Mathlib

set_option autoImplicit false

namespace Scruby

/-! Shallow embedding of the scruby redaction pipeline (Python).  Documents are
Python dicts with a content entry and a metadata dict; detected entities come
from the external presidio analyzer.  External collaborators (presidio
analyzer, anonymizer engine, HMAC from the standard library) are passed in as
function parameters. -/

/-- Python runtime values carried in documents and metadata mappings. -/
inductive Val : Type where
  | vStr : String → Val
  | vNat : Nat → Val
  | vList : List Val → Val
  | vDict : List (String × Val) → Val
  | vNone : Val

/-- First-match lookup in a Python-style association list (dict). -/
def dget {α : Type _} (d : List (String × α)) (k : String) : Option α :=
  match d with
  | [] => none
  | (k2, v) :: rest => if k2 = k then some v else dget rest k

/-- Python dict membership test (k in d). -/
def dhas {α : Type _} (d : List (String × α)) (k : String) : Bool :=
  (dget d k).isSome

/-- Overwrite every entry for key k in place (Python dicts hold one). -/
def dupdate {α : Type _} (d : List (String × α)) (k : String) (v : α) : List (String × α) :=
  match d with
  | [] => []
  | (k2, w) :: rest => if k2 = k then (k, v) :: dupdate rest k v else (k2, w) :: dupdate rest k v

/-- Python dict assignment d[k] = v: overwrite an existing key in place
(keeping its position), else append the new key at the end. -/
def dset {α : Type _} (d : List (String × α)) (k : String) (v : α) : List (String × α) :=
  if dhas d k then dupdate d k v else d ++ [(k, v)]

theorem dget_append {α : Type _} (d1 d2 : List (String × α)) (k : String) :
    dget (d1 ++ d2) k =
      (match dget d1 k with
       | some v => some v
       | none => dget d2 k) := by
  induction d1 with
  | nil => simp [dget]
  | cons p rest ih =>
    obtain ⟨k2, v⟩ := p
    by_cases h : k2 = k
    · subst h; simp [dget]
    · simp [dget, h, ih]

theorem dget_dupdate_self {α : Type _} (d : List (String × α)) (k : String) (v : α) :
    dget (dupdate d k v) k = (dget d k).map (fun _ => v) := by
  induction d with
  | nil => simp [dget, dupdate]
  | cons p rest ih =>
    obtain ⟨k2, w⟩ := p
    by_cases hk : k2 = k
    · subst hk; simp [dget, dupdate]
    · simp [dget, dupdate, hk, ih]

theorem dget_dupdate_ne {α : Type _} (d : List (String × α)) (k k2 : String) (v : α)
    (h : k2 ≠ k) :
    dget (dupdate d k v) k2 = dget d k2 := by
  induction d with
  | nil => simp [dget, dupdate]
  | cons p rest ih =>
    obtain ⟨k3, w⟩ := p
    by_cases hk : k3 = k
    · subst hk
      simp [dget, dupdate, Ne.symm h, ih]
    · by_cases hk2 : k3 = k2 <;> simp [dget, dupdate, hk, hk2, h, ih]

theorem dget_dset_self {α : Type _} (d : List (String × α)) (k : String) (v : α) :
    dget (dset d k v) k = some v := by
  unfold dset
  by_cases hh : dhas d k = true
  · rcases Option.isSome_iff_exists.mp (by simpa [dhas] using hh) with ⟨w, hw⟩
    simp [hh, dget_dupdate_self, hw]
  · have hnone : dget d k = none := by
      simp only [dhas, Bool.not_eq_true] at hh
      exact Option.not_isSome_iff_eq_none.mp (by simp [hh])
    simp [hh, dget_append, hnone, dget]

theorem dget_dset_ne {α : Type _} (d : List (String × α)) (k k2 : String) (v : α)
    (h : k2 ≠ k) : dget (dset d k v) k2 = dget d k2 := by
  unfold dset
  by_cases hh : dhas d k = true
  · simp [hh, dget_dupdate_ne d k k2 v h]
  · rw [if_neg hh, dget_append]
    cases hd : dget d k2 with
    | none => simp [dget, Ne.symm h]
    | some w => simp

/-- A pipeline document: the content entry and the metadata dict.
content = none models a dict without the content key; some Val.vNone models a
content key that is present but null. -/
structure Document : Type where
  content : Option Val
  metadata : List (String × Val)

/-- A detected entity (presidio RecognizerResult): category tag, half-open
character span and confidence score.  Scores are modelled as rationals; the
Python floats that occur are binary rationals and only their ordering is used. -/
structure REnt : Type where
  entity_type : String
  start : Nat
  endPos : Nat
  score : ℚ
  deriving DecidableEq

/-- The fixed entity-type priority table of Redactor._resolve_conflicts;
unlisted types get the DEFAULT priority 10. -/
def ENTITY_PRIORITIES (t : String) : Nat :=
  if t = "US_SSN" then 100
  else if t = "EMAIL_ADDRESS" then 95
  else if t = "PHONE_NUMBER" then 90
  else if t = "CREDIT_CARD" then 85
  else if t = "MEDICAL_RECORD_NUMBER" then 80
  else if t = "PRESCRIPTION_NUMBER" then 75
  else if t = "INSURANCE_ID" then 70
  else if t = "PERSON" then 60
  else if t = "DATE_TIME" then 50
  else if t = "LOCATION" then 40
  else if t = "ORGANIZATION" then 30
  else 10

/-- get_priority of Redactor._resolve_conflicts: type priority, then
confidence, then span length. -/
def priorityTuple (r : REnt) : Nat × ℚ × Nat :=
  (ENTITY_PRIORITIES r.entity_type, r.score, r.endPos - r.start)

/-- Python lexicographic tuple comparison a > b on priority tuples. -/
def tupGT (a b : Nat × ℚ × Nat) : Bool :=
  decide (b.1 < a.1) ||
    (decide (a.1 = b.1) &&
      (decide (b.2.1 < a.2.1) || (decide (a.2.1 = b.2.1) && decide (b.2.2 < a.2.2))))

/-- Span overlap test of Redactor._resolve_conflicts. -/
def overlaps (r1 r2 : REnt) : Bool :=
  !(decide (r1.endPos ≤ r2.start) || decide (r2.endPos ≤ r1.start))

theorem overlaps_symm (a b : REnt) : overlaps a b = overlaps b a := by
  simp only [overlaps]
  rw [Bool.or_comm]

theorem tupGT_asymm (a b : Nat × ℚ × Nat) (h : tupGT a b = true) : tupGT b a = false := by
  by_contra hc
  rw [Bool.not_eq_false] at hc
  simp only [tupGT, Bool.or_eq_true, Bool.and_eq_true, decide_eq_true_eq] at h hc
  rcases h with h1 | ⟨h1, h2 | ⟨h2, h3⟩⟩ <;>
    rcases hc with c1 | ⟨c1, c2 | ⟨c2, c3⟩⟩ <;>
      first | omega | linarith

theorem tupGT_irrefl (a : Nat × ℚ × Nat) : tupGT a a = false := by
  simp [tupGT]

/-- Stable insertion: e is placed before the first element that does not have
to come before it. -/
def insertBy {α : Type _} (bef : α → α → Bool) (e : α) : List α → List α
  | [] => [e]
  | x :: xs => if bef x e then x :: insertBy bef e xs else e :: x :: xs

/-- Stable insertion sort, matching Python sorted for a strict key comparison
bef (a must be placed before b). -/
def isortBy {α : Type _} (bef : α → α → Bool) : List α → List α
  | [] => []
  | x :: xs => insertBy bef x (isortBy bef xs)

theorem insertBy_perm {α : Type _} (bef : α → α → Bool) (e : α) (l : List α) :
    (insertBy bef e l).Perm (e :: l) := by
  induction l with
  | nil => simp [insertBy]
  | cons x xs ih =>
    simp only [insertBy]
    by_cases h : bef x e = true
    · simp only [h, if_pos]
      exact ((ih.cons x).trans (List.Perm.swap e x xs))
    · simp [h]

theorem isortBy_perm {α : Type _} (bef : α → α → Bool) (l : List α) :
    (isortBy bef l).Perm l := by
  induction l with
  | nil => simp [isortBy]
  | cons x xs ih =>
    exact (insertBy_perm bef x (isortBy bef xs)).trans (ih.cons x)

theorem mem_insertBy {α : Type _} (bef : α → α → Bool) (e a : α) (l : List α) :
    a ∈ insertBy bef e l ↔ a = e ∨ a ∈ l := by
  constructor
  · intro h
    have := (insertBy_perm bef e l).mem_iff.mp h
    simpa using this
  · intro h
    apply (insertBy_perm bef e l).mem_iff.mpr
    simpa using h

theorem insertBy_pairwise {α : Type _} {R : α → α → Prop} (bef : α → α → Bool)
    (htrans : ∀ a b c, R a b → R b c → R a c)
    (hbt : ∀ a b, bef a b = true → R a b)
    (hbf : ∀ a b, bef a b = false → R b a)
    (e : α) (l : List α) (hl : l.Pairwise R) :
    (insertBy bef e l).Pairwise R := by
  induction l with
  | nil => simp [insertBy]
  | cons x xs ih =>
    rcases List.pairwise_cons.mp hl with ⟨hx, hxs⟩
    simp only [insertBy]
    by_cases h : bef x e = true
    · simp only [h, if_pos]
      apply List.pairwise_cons.mpr
      refine ⟨?_, ih hxs⟩
      intro b hb
      rcases (mem_insertBy bef e b xs).mp hb with rfl | hbxs
      · exact hbt _ _ h
      · exact hx b hbxs
    · have hf : bef x e = false := by simpa using h
      simp only [h, if_neg Bool.false_ne_true]
      apply List.pairwise_cons.mpr
      refine ⟨?_, hl⟩
      intro b hb
      rcases List.mem_cons.mp hb with rfl | hbxs
      · exact hbf _ _ hf
      · exact htrans e x b (hbf x e hf) (hx b hbxs)

theorem isortBy_pairwise {α : Type _} {R : α → α → Prop} (bef : α → α → Bool)
    (htrans : ∀ a b c, R a b → R b c → R a c)
    (hbt : ∀ a b, bef a b = true → R a b)
    (hbf : ∀ a b, bef a b = false → R b a)
    (l : List α) : (isortBy bef l).Pairwise R := by
  induction l with
  | nil => simp [isortBy]
  | cons x xs ih =>
    exact insertBy_pairwise bef htrans hbt hbf x (isortBy bef xs) ih

/-- Comparison used to sort candidates by start offset. -/
def startLT (a b : REnt) : Bool := decide (a.start < b.start)

/-- Inner loop of Redactor._resolve_conflicts over the accepted list.  Returns
(should_add, remaining accepted entities).  A losing comparison breaks the
loop; entities already marked for removal stay removed, the unscanned rest of
the list is kept. -/
def conflictLoop (current : REnt) : List REnt → Bool × List REnt
  | [] => (true, [])
  | x :: xs =>
    if overlaps current x then
      if tupGT (priorityTuple current) (priorityTuple x) then conflictLoop current xs
      else (false, x :: xs)
    else
      let r := conflictLoop current xs
      (r.1, x :: r.2)

/-- One scan step of Redactor._resolve_conflicts: drop losing conflicts from
the accepted list and append the candidate if it won every conflict. -/
def resolveStep (filtered : List REnt) (current : REnt) : List REnt :=
  let r := conflictLoop current filtered
  if r.1 then r.2 ++ [current] else r.2

/-- Redactor._resolve_conflicts: sort candidates by start offset and scan left
to right, maintaining an accepted list of non-overlapping entities. -/
def resolveConflicts (results : List REnt) : List REnt :=
  if results = [] then results
  else (isortBy startLT results).foldl resolveStep []

theorem conflictLoop_free (current : REnt) (l : List REnt)
    (h : ∀ x ∈ l, overlaps current x = false) :
    conflictLoop current l = (true, l) := by
  induction l with
  | nil => simp [conflictLoop]
  | cons x xs ih =>
    have hx := h x (List.mem_cons_self x xs)
    have ihx := ih (fun y hy => h y (List.mem_cons_of_mem x hy))
    simp [conflictLoop, hx, ihx]

theorem resolveStep_free (filtered : List REnt) (current : REnt)
    (h : ∀ x ∈ filtered, overlaps current x = false) :
    resolveStep filtered current = filtered ++ [current] := by
  simp [resolveStep, conflictLoop_free current filtered h]

theorem foldl_resolveStep_free (u : List REnt) :
    ∀ acc : List REnt,
      (∀ f ∈ u, ∀ g ∈ acc, overlaps f g = false) →
      u.Pairwise (fun a b => overlaps b a = false) →
      u.foldl resolveStep acc = acc ++ u := by
  induction u with
  | nil => intro acc _ _; simp
  | cons x xs ih =>
    intro acc hacc hpair
    rcases List.pairwise_cons.mp hpair with ⟨hx, hxs⟩
    have hstep : resolveStep acc x = acc ++ [x] :=
      resolveStep_free acc x (fun g hg => hacc x (List.mem_cons_self x xs) g hg)
    simp only [List.foldl_cons, hstep]
    rw [ih (acc ++ [x]) ?_ hxs]
    · simp
    · intro f hf g hg
      rcases List.mem_append.mp hg with hga | hgx
      · exact hacc f (List.mem_cons_of_mem x hf) g hga
      · rw [List.mem_singleton.mp hgx]
        exact hx f hf

theorem conflictLoop_sublist (current : REnt) (l : List REnt) :
    (conflictLoop current l).2.Sublist l ∧
      ((conflictLoop current l).1 = true →
        ∀ x ∈ (conflictLoop current l).2, overlaps current x = false) := by
  induction l with
  | nil => simp [conflictLoop]
  | cons x xs ih =>
    by_cases hov : overlaps current x = true
    · by_cases hgt : tupGT (priorityTuple current) (priorityTuple x) = true
      · simp only [conflictLoop, hov, hgt, if_pos]
        exact ⟨ih.1.trans (List.sublist_cons_self x xs), ih.2⟩
      · simp [conflictLoop, hov, hgt]
    · have hovf : overlaps current x = false := by simpa using hov
      simp only [conflictLoop, hovf, Bool.false_eq_true, if_neg, not_false_iff]
      constructor
      · exact ih.1.cons₂ x
      · intro h1 y hy
        rcases List.mem_cons.mp hy with rfl | hyr
        · exact hovf
        · exact ih.2 h1 y hyr

theorem resolveStep_pairwise (filtered : List REnt) (current : REnt)
    (h : filtered.Pairwise (fun a b => overlaps a b = false)) :
    (resolveStep filtered current).Pairwise (fun a b => overlaps a b = false) := by
  unfold resolveStep
  rcases conflictLoop_sublist current filtered with ⟨hsub, hfree⟩
  by_cases hb : (conflictLoop current filtered).1 = true
  · simp only [hb, if_pos]
    apply List.pairwise_append.mpr
    refine ⟨h.sublist hsub, List.pairwise_singleton _ _, ?_⟩
    intro a ha b hb2
    rw [List.mem_singleton.mp hb2, overlaps_symm]
    exact hfree hb a ha
  · simp only [hb, if_neg, Bool.not_eq_true]
    exact h.sublist hsub

theorem foldl_resolveStep_pairwise (u : List REnt) :
    ∀ acc : List REnt, acc.Pairwise (fun a b => overlaps a b = false) →
      (u.foldl resolveStep acc).Pairwise (fun a b => overlaps a b = false) := by
  induction u with
  | nil => intro acc h; simpa
  | cons x xs ih =>
    intro acc h
    exact ih _ (resolveStep_pairwise acc x h)

theorem resolveConflicts_pairwise (l : List REnt) :
    (resolveConflicts l).Pairwise (fun a b => overlaps a b = false) := by
  unfold resolveConflicts
  by_cases h : l = []
  · simp [h]
  · simp only [h, if_neg]
    exact foldl_resolveStep_pairwise _ [] List.Pairwise.nil

theorem conflictLoop_append_free (current : REnt) (u rest : List REnt)
    (h : ∀ x ∈ u, overlaps current x = false) :
    conflictLoop current (u ++ rest) =
      ((conflictLoop current rest).1, u ++ (conflictLoop current rest).2) := by
  induction u with
  | nil => simp
  | cons x xs ih =>
    have hx := h x (List.mem_cons_self x xs)
    have ihx := ih (fun y hy => h y (List.mem_cons_of_mem x hy))
    simp [conflictLoop, hx, ihx]

/-- Master computation for an input whose only overlapping pair is (P, Q)
with P before Q in start order: all other entities pass through, and the
direct comparison between Q and P decides the survivor. -/
theorem resolve_single_pair_core (u v w : List REnt) (P Q : REnt)
    (hQP : overlaps Q P = true)
    (hnd : (u ++ (P :: (v ++ (Q :: w)))).Nodup)
    (hfree : ∀ f, f ∈ u ++ v ++ w → ∀ g, (g ∈ u ++ v ++ w ∨ g = P ∨ g = Q) → g ≠ f →
      overlaps f g = false) :
    (u ++ (P :: (v ++ (Q :: w)))).foldl resolveStep [] =
      if tupGT (priorityTuple Q) (priorityTuple P) then (u ++ v) ++ (Q :: w)
      else u ++ (P :: (v ++ w)) := by
  have hperm : (u ++ (P :: (v ++ (Q :: w)))).Perm (P :: Q :: (u ++ v ++ w)) := by
    have h1 : (u ++ P :: (v ++ Q :: w)).Perm (P :: (u ++ (v ++ Q :: w))) := List.perm_middle
    have h2 : ((u ++ v) ++ Q :: w).Perm (Q :: (u ++ v ++ w)) := List.perm_middle
    refine h1.trans ?_
    rw [show u ++ (v ++ Q :: w) = (u ++ v) ++ Q :: w from (List.append_assoc u v (Q :: w)).symm]
    exact h2.cons P
  have hnd2 : (P :: Q :: (u ++ v ++ w)).Nodup := hperm.nodup_iff.mp hnd
  rcases List.nodup_cons.mp hnd2 with ⟨hPn, hnd3⟩
  rcases List.nodup_cons.mp hnd3 with ⟨hQn, hnduvw⟩
  have hPnuvw : P ∉ u ++ v ++ w := fun hc => hPn (List.mem_cons_of_mem Q hc)
  -- distinct members of the free part never overlap
  have hfree2 : ∀ f ∈ u ++ v ++ w, ∀ g ∈ u ++ v ++ w, g ≠ f → overlaps f g = false :=
    fun f hf g hg => hfree f hf g (Or.inl hg)
  have hfreeP : ∀ f ∈ u ++ v ++ w, overlaps f P = false :=
    fun f hf => hfree f hf P (Or.inr (Or.inl rfl)) (fun hc => hPnuvw (hc ▸ hf))
  have hfreeQ : ∀ f ∈ u ++ v ++ w, overlaps f Q = false :=
    fun f hf => hfree f hf Q (Or.inr (Or.inr rfl)) (fun hc => hQn (hc ▸ hf))
  have memU : ∀ {a : REnt}, a ∈ u → a ∈ u ++ v ++ w := fun ha => by simp [ha]
  have memV : ∀ {a : REnt}, a ∈ v → a ∈ u ++ v ++ w := fun ha => by simp [ha]
  have memW : ∀ {a : REnt}, a ∈ w → a ∈ u ++ v ++ w := fun ha => by simp [ha]
  have huvDisjW : (u ++ v).Disjoint w := List.disjoint_of_nodup_append (by simpa using hnduvw)
  have huvnd : (u ++ v).Nodup := hnduvw.sublist (List.sublist_append_left (u ++ v) w)
  have hUdisjV : u.Disjoint v := List.disjoint_of_nodup_append huvnd
  have pairOf : ∀ (t : List REnt), t.Nodup → (∀ {a : REnt}, a ∈ t → a ∈ u ++ v ++ w) →
      t.Pairwise (fun a b => overlaps b a = false) := by
    intro t hton hmem
    refine hton.imp_of_mem ?_
    intro a b ha hb hne
    exact hfree2 b (hmem hb) a (hmem ha) hne
  have hndu : u.Nodup :=
    hnduvw.sublist ((List.sublist_append_left u v).trans (List.sublist_append_left (u ++ v) w))
  have hndv : v.Nodup := hnduvw.sublist (by
    have h1 : v.Sublist (u ++ v) := List.sublist_append_right u v
    exact h1.trans (List.sublist_append_left (u ++ v) w))
  have hndw : w.Nodup := hnduvw.sublist (List.sublist_append_right (u ++ v) w)
  have hpu := pairOf u hndu (fun ha => memU ha)
  have hpv := pairOf v hndv (fun ha => memV ha)
  have hpw := pairOf w hndw (fun ha => memW ha)
  -- phase 1: the prefix u passes through
  have h1 : (u ++ (P :: (v ++ (Q :: w)))).foldl resolveStep [] =
      (P :: (v ++ (Q :: w))).foldl resolveStep u := by
    rw [List.foldl_append]
    congr 1
    simpa using foldl_resolveStep_free u [] (by simp) hpu
  -- phase 2: P is accepted
  have h2 : resolveStep u P = u ++ [P] := by
    apply resolveStep_free
    intro g hg
    rw [overlaps_symm]
    exact hfreeP g (memU hg)
  -- phase 3: v passes through
  have h3 : v.foldl resolveStep (u ++ [P]) = (u ++ [P]) ++ v := by
    apply foldl_resolveStep_free v (u ++ [P]) ?_ hpv
    intro f hf g hg
    rcases List.mem_append.mp hg with hgu | hgp
    · refine hfree2 f (memV hf) g (memU hgu) ?_
      intro hc
      subst hc
      exact hUdisjV hgu hf
    · rw [List.mem_singleton.mp hgp]
      exact hfreeP f (memV hf)
  -- phase 4: the comparison between Q and P decides
  have h4 : resolveStep ((u ++ [P]) ++ v) Q =
      if tupGT (priorityTuple Q) (priorityTuple P) then (u ++ v) ++ [Q]
      else u ++ (P :: v) := by
    have hfreeu : ∀ x ∈ u, overlaps Q x = false := by
      intro x hx
      rw [overlaps_symm]
      exact hfreeQ x (memU hx)
    have hfreev : ∀ x ∈ v, overlaps Q x = false := by
      intro x hx
      rw [overlaps_symm]
      exact hfreeQ x (memV hx)
    have hloop : conflictLoop Q (u ++ (P :: v)) =
        ((conflictLoop Q (P :: v)).1, u ++ (conflictLoop Q (P :: v)).2) :=
      conflictLoop_append_free Q u (P :: v) hfreeu
    have hshape : (u ++ [P]) ++ v = u ++ (P :: v) := by simp
    by_cases hgt : tupGT (priorityTuple Q) (priorityTuple P) = true
    · have hPv : conflictLoop Q (P :: v) = (true, v) := by
        simp [conflictLoop, hQP, hgt, conflictLoop_free Q v hfreev]
      unfold resolveStep
      rw [hshape, hloop, hPv]
      simp [hgt]
    · have hPv : conflictLoop Q (P :: v) = (false, P :: v) := by
        simp [conflictLoop, hQP, hgt]
      unfold resolveStep
      rw [hshape, hloop, hPv]
      simp [hgt]
  -- phase 5: the suffix w passes through
  have h5 : ∀ acc : List REnt, (∀ g ∈ acc, g ∈ u ++ v ∨ g = P ∨ g = Q) →
      w.foldl resolveStep acc = acc ++ w := by
    intro acc hacc
    apply foldl_resolveStep_free w acc ?_ hpw
    intro f hf g hg
    rcases hacc g hg with hguv | rfl | rfl
    · refine hfree2 f (memW hf) g (by rcases List.mem_append.mp hguv with h' | h' <;> simp [h']) ?_
      intro hc
      subst hc
      exact huvDisjW hguv hf
    · exact hfreeP f (memW hf)
    · exact hfreeQ f (memW hf)
  rw [h1]
  simp only [List.foldl_cons, h2]
  rw [List.foldl_append, h3]
  simp only [List.foldl_cons]
  rw [h4]
  by_cases hgt : tupGT (priorityTuple Q) (priorityTuple P) = true
  · simp only [hgt, if_pos]
    rw [h5 ((u ++ v) ++ [Q]) ?_]
    · simp
    · intro g hg
      rcases List.mem_append.mp hg with h' | h'
      · exact Or.inl h'
      · exact Or.inr (Or.inr (List.mem_singleton.mp h'))
  · simp only [hgt, if_neg, Bool.not_eq_true]
    rw [h5 (u ++ (P :: v)) ?_]
    · simp
    · intro g hg
      rcases List.mem_append.mp hg with h' | h'
      · exact Or.inl (by simp [h'])
      · rcases List.mem_cons.mp h' with rfl | h2
        · exact Or.inr (Or.inl rfl)
        · exact Or.inl (by simp [h2])

/-- For an input whose only overlapping pair (by value) is (X, Y), with X the
strictly greater entity under the priority ordering, X survives conflict
resolution and Y does not, whatever the order of the input list. -/
theorem resolveConflicts_single_pair (l : List REnt) (X Y : REnt)
    (hX : X ∈ l) (hY : Y ∈ l)
    (hov : overlaps X Y = true)
    (hnd : l.Nodup)
    (honly : ∀ a ∈ l, ∀ b ∈ l, overlaps a b = true →
      a = b ∨ (a = X ∧ b = Y) ∨ (a = Y ∧ b = X))
    (hgt : tupGT (priorityTuple X) (priorityTuple Y) = true) :
    X ∈ resolveConflicts l ∧ Y ∉ resolveConflicts l := by
  have hne : X ≠ Y := by
    intro hc
    rw [hc, tupGT_irrefl] at hgt
    exact Bool.false_ne_true hgt
  have hlne : l ≠ [] := by
    intro hc
    rw [hc] at hX
    simp at hX
  have hrc : resolveConflicts l = (isortBy startLT l).foldl resolveStep [] := by
    unfold resolveConflicts
    simp [hlne]
  have hsl : (isortBy startLT l).Perm l := isortBy_perm startLT l
  have hXs : X ∈ isortBy startLT l := hsl.mem_iff.mpr hX
  have hYs : Y ∈ isortBy startLT l := hsl.mem_iff.mpr hY
  have hnds : (isortBy startLT l).Nodup := hsl.nodup_iff.mpr hnd
  have hmeml : ∀ a ∈ isortBy startLT l, a ∈ l := fun a ha => hsl.mem_iff.mp ha
  obtain ⟨u, t, hdec⟩ := List.append_of_mem hXs
  have hYut : Y ∈ u ∨ Y ∈ t := by
    rw [hdec] at hYs
    rcases List.mem_append.mp hYs with h' | h'
    · exact Or.inl h'
    · rcases List.mem_cons.mp h' with h2 | h2
      · exact absurd h2.symm hne
      · exact Or.inr h2
  -- a helper discharging the freeness hypothesis of the core lemma
  have main : ∀ (u2 v2 w2 : List REnt) (P Q : REnt),
      isortBy startLT l = u2 ++ (P :: (v2 ++ (Q :: w2))) →
      ((P = X ∧ Q = Y) ∨ (P = Y ∧ Q = X)) →
      (isortBy startLT l).foldl resolveStep [] =
        if tupGT (priorityTuple Q) (priorityTuple P) then (u2 ++ v2) ++ (Q :: w2)
        else u2 ++ (P :: (v2 ++ w2)) := by
    intro u2 v2 w2 P Q hshape hPQ
    have hQP : overlaps Q P = true := by
      rcases hPQ with ⟨rfl, rfl⟩ | ⟨rfl, rfl⟩
      · rw [overlaps_symm]; exact hov
      · exact hov
    have hnd4 : (u2 ++ (P :: (v2 ++ (Q :: w2)))).Nodup := hshape ▸ hnds
    have hpermc : (u2 ++ (P :: (v2 ++ (Q :: w2)))).Perm (P :: Q :: (u2 ++ v2 ++ w2)) := by
      have h1 : (u2 ++ P :: (v2 ++ Q :: w2)).Perm (P :: (u2 ++ (v2 ++ Q :: w2))) :=
        List.perm_middle
      have h2 : ((u2 ++ v2) ++ Q :: w2).Perm (Q :: (u2 ++ v2 ++ w2)) := List.perm_middle
      refine h1.trans ?_
      rw [show u2 ++ (v2 ++ Q :: w2) = (u2 ++ v2) ++ Q :: w2 from
        (List.append_assoc u2 v2 (Q :: w2)).symm]
      exact h2.cons P
    have hnd5 : (P :: Q :: (u2 ++ v2 ++ w2)).Nodup := hpermc.nodup_iff.mp hnd4
    rcases List.nodup_cons.mp hnd5 with ⟨hPn, hnd6⟩
    rcases List.nodup_cons.mp hnd6 with ⟨hQn, _⟩
    have hPnot : P ∉ u2 ++ v2 ++ w2 := fun hc => hPn (List.mem_cons_of_mem Q hc)
    have hmemuvw : ∀ a ∈ u2 ++ v2 ++ w2, a ∈ l := by
      intro a ha
      apply hmeml
      rw [hshape]
      exact hpermc.mem_iff.mpr (List.mem_cons_of_mem P (List.mem_cons_of_mem Q ha))
    rw [hshape]
    apply resolve_single_pair_core u2 v2 w2 P Q hQP hnd4
    intro f hf g hgopt hne2
    by_contra hovc
    rw [Bool.not_eq_false] at hovc
    have hfl : f ∈ l := hmemuvw f hf
    have hgl : g ∈ l := by
      rcases hgopt with h' | rfl | rfl
      · exact hmemuvw g h'
      · rcases hPQ with ⟨rfl, _⟩ | ⟨rfl, _⟩ <;> [exact hX; exact hY]
      · rcases hPQ with ⟨_, rfl⟩ | ⟨_, rfl⟩ <;> [exact hY; exact hX]
    have hfX : f ≠ X := by
      intro hc
      rcases hPQ with ⟨hP, _⟩ | ⟨_, hQ⟩
      · exact hPnot (hP ▸ hc ▸ hf)
      · exact hQn (hQ ▸ hc ▸ hf)
    have hfY : f ≠ Y := by
      intro hc
      rcases hPQ with ⟨_, hQ⟩ | ⟨hP, _⟩
      · exact hQn (hQ ▸ hc ▸ hf)
      · exact hPnot (hP ▸ hc ▸ hf)
    rcases honly f hfl g hgl hovc with h' | ⟨h', _⟩ | ⟨h', _⟩
    · exact hne2 h'.symm
    · exact hfX h'
    · exact hfY h'
  rcases hYut with hYu | hYt
  · -- Y comes before X in start order: P = Y, Q = X
    obtain ⟨a, b, hdec2⟩ := List.append_of_mem hYu
    have hshape : isortBy startLT l = a ++ (Y :: (b ++ (X :: t))) := by
      rw [hdec, hdec2]
      simp
    have hout := main a b t Y X hshape (Or.inr ⟨rfl, rfl⟩)
    rw [hrc, hout, if_pos hgt]
    have hnd4 : (a ++ (Y :: (b ++ (X :: t)))).Nodup := hshape ▸ hnds
    have hYnot : Y ∉ a ++ (b ++ (X :: t)) :=
      (List.nodup_cons.mp ((List.perm_middle.nodup_iff).mp hnd4)).1
    constructor
    · simp
    · intro hc
      apply hYnot
      simp only [List.mem_append, List.mem_cons] at hc ⊢
      tauto
  · -- X comes before Y: P = X, Q = Y
    obtain ⟨v, w, hdec2⟩ := List.append_of_mem hYt
    have hshape : isortBy startLT l = u ++ (X :: (v ++ (Y :: w))) := by
      rw [hdec, hdec2]
    have hgtYX : tupGT (priorityTuple Y) (priorityTuple X) = false := tupGT_asymm _ _ hgt
    have hout := main u v w X Y hshape (Or.inl ⟨rfl, rfl⟩)
    rw [hrc, hout, if_neg (by rw [hgtYX]; exact Bool.false_ne_true)]
    have hnd4 : (u ++ (X :: (v ++ (Y :: w)))).Nodup := hshape ▸ hnds
    have hstep1 : (X :: (u ++ (v ++ (Y :: w)))).Nodup := (List.perm_middle.nodup_iff).mp hnd4
    have htail2 : ((u ++ v) ++ (Y :: w)).Nodup := by
      rw [List.append_assoc]
      exact (List.nodup_cons.mp hstep1).2
    have hYnot : Y ∉ (u ++ v) ++ w :=
      (List.nodup_cons.mp ((List.perm_middle.nodup_iff).mp htail2)).1
    constructor
    · simp
    · intro hc
      simp only [List.mem_append, List.mem_cons] at hc
      rcases hc with h' | h' | h' | h'
      · exact hYnot (by simp [h'])
      · exact hne h'.symm
      · exact hYnot (by simp [h'])
      · exact hYnot (by simp [h'])

/-- Concrete detected entities used in the concrete checks below. -/
def cE : REnt := ⟨"EMAIL_ADDRESS", 0, 5, 1⟩

def cD : REnt := ⟨"PHONE_NUMBER", 2, 20, 1⟩

def cS : REnt := ⟨"PERSON", 6, 10, 1⟩

def cA : REnt := ⟨"PERSON", 0, 5, 1⟩

def cB : REnt := ⟨"EMAIL_ADDRESS", 3, 8, 1⟩

/-- C1 (amended): the list returned by conflict resolution is always pairwise
non-overlapping; and for an input (in any order, without duplicates) whose
only overlapping pair is X, Y with X strictly greater under the lexicographic
ordering of (type priority, score, span length), X survives and Y is
discarded.  (The original claim quantified over all overlapping pairs of
arbitrary inputs; that stronger form is refuted by C1_counterexample.) -/
theorem C1_conflict_resolution_amended :
    (∀ l : List REnt, (resolveConflicts l).Pairwise (fun a b => overlaps a b = false)) ∧
    (∀ (l : List REnt) (X Y : REnt), X ∈ l → Y ∈ l → overlaps X Y = true → l.Nodup →
      (∀ a ∈ l, ∀ b ∈ l, overlaps a b = true →
        a = b ∨ (a = X ∧ b = Y) ∨ (a = Y ∧ b = X)) →
      tupGT (priorityTuple X) (priorityTuple Y) = true →
      X ∈ resolveConflicts l ∧ Y ∉ resolveConflicts l) :=
  ⟨resolveConflicts_pairwise,
    fun l X Y h1 h2 h3 h4 h5 h6 => resolveConflicts_single_pair l X Y h1 h2 h3 h4 h5 h6⟩

/-- C1 is falsified as stated: in the input [cE, cD, cS] the entities cD and
cS overlap, exactly one of them (cS) survives conflict resolution, and yet the
discarded cD is strictly greater under the lexicographic priority ordering.
(cD was eliminated by the still stronger cE, leaving the span free for cS.) -/
theorem C1_counterexample :
    overlaps cD cS = true ∧
    tupGT (priorityTuple cD) (priorityTuple cS) = true ∧
    cS ∈ resolveConflicts [cE, cD, cS] ∧
    cD ∉ resolveConflicts [cE, cD, cS] := by decide

/-- Witness for C1: the amended theorem applied to the concrete two-entity
input [cA, cB] whose only overlapping pair is (cB, cA), with cB greater. -/
theorem C1_witness :
    cB ∈ resolveConflicts [cA, cB] ∧ cA ∉ resolveConflicts [cA, cB] :=
  C1_conflict_resolution_amended.2 [cA, cB] cB cA (by decide) (by decide) (by decide)
    (by decide) (by decide) (by decide)

/-- C8: for every input list of pairwise non-overlapping entities, conflict
resolution returns exactly the input entities (a permutation of the input,
nothing discarded or modified), ordered by ascending start offset. -/
theorem C8_nonoverlap_passthrough (l : List REnt)
    (h : l.Pairwise (fun a b => overlaps a b = false)) :
    resolveConflicts l = isortBy startLT l ∧
      (resolveConflicts l).Perm l ∧
      (resolveConflicts l).Pairwise (fun a b => a.start ≤ b.start) := by
  have hsymm : ∀ {a b : REnt}, overlaps a b = false → overlaps b a = false := by
    intro a b hab
    rw [overlaps_symm]
    exact hab
  have hs : (isortBy startLT l).Pairwise (fun a b => overlaps a b = false) :=
    (List.Perm.pairwise_iff (fun {a b} hab => hsymm hab) (isortBy_perm startLT l)).mpr h
  have heq : resolveConflicts l = isortBy startLT l := by
    unfold resolveConflicts
    by_cases hl : l = []
    · simp [hl, isortBy]
    · simp only [hl, if_neg]
      have := foldl_resolveStep_free (isortBy startLT l) [] (by simp)
        (hs.imp (fun hab => hsymm hab))
      simpa using this
  refine ⟨heq, ?_, ?_⟩
  · rw [heq]
    exact isortBy_perm startLT l
  · rw [heq]
    refine isortBy_pairwise (R := fun a b : REnt => a.start ≤ b.start) startLT ?_ ?_ ?_ l
    · intro a b c h1 h2
      exact le_trans h1 h2
    · intro a b hab
      exact le_of_lt (by simpa [startLT] using hab)
    · intro a b hab
      have : ¬ a.start < b.start := by simpa [startLT] using hab
      omega

/-- Witness for C8: the theorem applied to the concrete non-overlapping input
[cS, cE] given in descending start order. -/
theorem C8_witness :
    resolveConflicts [cS, cE] = isortBy startLT [cS, cE] ∧
      (resolveConflicts [cS, cE]).Perm [cS, cE] ∧
      (resolveConflicts [cS, cE]).Pairwise (fun a b => a.start ≤ b.start) :=
  C8_nonoverlap_passthrough [cS, cE] (by decide)

/-! The custom hash redaction of Redactor._custom_hash_redaction: entity text
is normalized (lower case, strip, collapse whitespace runs), keyed-hashed, and
the span replaced by an angle-bracketed token. -/

/-- The regex class \s restricted to ASCII whitespace. -/
def isPySpace (c : Char) : Bool :=
  c = ' ' || c = Char.ofNat 9 || c = Char.ofNat 10 || c = Char.ofNat 13 ||
    c = Char.ofNat 11 || c = Char.ofNat 12

/-- Python str.strip(): drop leading and trailing whitespace. -/
def pyStripChars (l : List Char) : List Char :=
  ((l.dropWhile isPySpace).reverse.dropWhile isPySpace).reverse

/-- re.sub of one or more whitespace characters by a single space: each
maximal whitespace run becomes one space.  The flag records whether the
previous character belonged to a run. -/
def collapseWs : Bool → List Char → List Char
  | _, [] => []
  | prevSpace, c :: cs =>
    if isPySpace c then
      if prevSpace then collapseWs true cs else ' ' :: collapseWs true cs
    else c :: collapseWs false cs

/-- Normalization before hashing: entity_text.lower().strip() followed by the
whitespace-collapsing substitution.  (Char.toLower matches Python lower on the
ASCII range.) -/
def pyNormalize (s : String) : String :=
  String.mk (collapseWs false (pyStripChars (s.toList.map Char.toLower)))

/-- Python slice text[a:b] over code points. -/
def pySlice (s : String) (a b : Nat) : String :=
  String.mk ((s.toList.drop a).take (b - a))

/-- The replacement token built for one entity: the entity type and the first
12 hex characters of the keyed digest of the normalized entity text, in angle
brackets.  The HMAC-SHA1 primitive of the Python standard library is the
function parameter hmacHex (secret and message to hex digest). -/
def replacementFor (hmacHex : String → String → String) (secret : String)
    (text : String) (r : REnt) : String :=
  "<" ++ r.entity_type ++ ":" ++
    (hmacHex secret (pyNormalize (pySlice text r.start r.endPos))).take 12 ++ ">"

/-- redacted[:start] + replacement + redacted[end:]. -/
def spliceStr (s : String) (a b : Nat) (rep : String) : String :=
  String.mk (s.toList.take a ++ rep.toList ++ s.toList.drop b)

/-- Redactor._custom_hash_redaction: entities are processed in descending
start order so earlier replacements never shift pending offsets; each entity
text is taken from the original text. -/
def customHashRedaction (hmacHex : String → String → String) (secret : String)
    (text : String) (results : List REnt) : String :=
  (isortBy (fun a b => decide (b.start < a.start)) results).foldl
    (fun red r => spliceStr red r.start r.endPos (replacementFor hmacHex secret text r)) text

/-- C2: for every keyed hash function and secret, any two detected entities of
the same entity type whose extracted texts are equal after normalization are
substituted by the hash strategy with the identical replacement token, also
across different documents sharing the secret. -/
theorem C2_hash_token_determinism (hmacHex : String → String → String)
    (secret : String) (text1 text2 : String) (e1 e2 : REnt)
    (hty : e1.entity_type = e2.entity_type)
    (hnorm : pyNormalize (pySlice text1 e1.start e1.endPos) =
      pyNormalize (pySlice text2 e2.start e2.endPos)) :
    replacementFor hmacHex secret text1 e1 = replacementFor hmacHex secret text2 e2 := by
  simp [replacementFor, hty, hnorm]

/-- Witness for C2: two case and whitespace variants of the same person name
in two different documents produce the same token. -/
theorem C2_witness :
    pyNormalize (pySlice "Contact John  DOE here" 8 17) =
      pyNormalize (pySlice "mail JOHN DOE." 5 13) ∧
    replacementFor (fun s t => s ++ t) "key" "Contact John  DOE here" ⟨"PERSON", 8, 17, 1⟩ =
      replacementFor (fun s t => s ++ t) "key" "mail JOHN DOE." ⟨"PERSON", 5, 13, 1⟩ :=
  ⟨by decide, C2_hash_token_determinism (fun s t => s ++ t) "key"
    "Contact John  DOE here" "mail JOHN DOE." ⟨"PERSON", 8, 17, 1⟩ ⟨"PERSON", 5, 13, 1⟩
    rfl (by decide)⟩

/-- A single quote character, as a string. -/
def squote : String := String.mk [Char.ofNat 39]

/-- RedactorError conditions, distinguished by their message. -/
inductive RedErr : Type where
  | missingContent : RedErr
  | unknownStrategy : String → RedErr
  | wrapped : String → RedErr
  deriving DecidableEq

/-- The metadata update of Redactor.redact: spread the old metadata, then set
redacted_entities and redaction_strategy. -/
def redactMeta (m : List (String × Val)) (n : Nat) (strategy : String) :
    List (String × Val) :=
  dset (dset m "redacted_entities" (Val.vNat n)) "redaction_strategy" (Val.vStr strategy)

/-- Redactor.redact.  External collaborators are parameters: analyze is the
presidio analyzer (defined on strings; on a non-string content the Python
engine raises, which redact wraps into a generic RedactorError), anonymize the
anonymizer engine serving the replace, mask and encrypt strategies, hmacHex
the standard library HMAC-SHA1 hex digest.  strategy is the resolved strategy
name and secret the configured hmac secret. -/
def redact (analyze : String → List REnt)
    (anonymize : String → String → List REnt → String)
    (hmacHex : String → String → String)
    (strategy secret : String) (doc : Document) : Except RedErr Document :=
  match doc.content with
  | none => Except.error RedErr.missingContent
  | some (Val.vStr text) =>
    let results := resolveConflicts (analyze text)
    if strategy = "hash" then
      Except.ok ⟨some (Val.vStr (customHashRedaction hmacHex secret text results)),
        redactMeta doc.metadata results.length strategy⟩
    else if strategy = "replace" || strategy = "mask" || strategy = "encrypt" then
      Except.ok ⟨some (Val.vStr (anonymize strategy text results)),
        redactMeta doc.metadata results.length strategy⟩
    else Except.error (RedErr.unknownStrategy strategy)
  | some _ => Except.error (RedErr.wrapped "Failed to redact document")

theorem dget_redactMeta_entities (m : List (String × Val)) (n : Nat) (s : String) :
    dget (redactMeta m n s) "redacted_entities" = some (Val.vNat n) := by
  unfold redactMeta
  rw [dget_dset_ne _ _ _ _ (by decide), dget_dset_self]

theorem dget_redactMeta_strategy (m : List (String × Val)) (n : Nat) (s : String) :
    dget (redactMeta m n s) "redaction_strategy" = some (Val.vStr s) := by
  unfold redactMeta
  rw [dget_dset_self]

theorem dget_redactMeta_other (m : List (String × Val)) (n : Nat) (s k : String)
    (h1 : k ≠ "redacted_entities") (h2 : k ≠ "redaction_strategy") :
    dget (redactMeta m n s) k = dget m k := by
  unfold redactMeta
  rw [dget_dset_ne _ _ _ _ h2, dget_dset_ne _ _ _ _ h1]

/-- On a document with string content and a valid strategy, redact succeeds
with the redacted text and the extended metadata. -/
theorem redact_ok (analyze : String → List REnt)
    (anonymize : String → String → List REnt → String)
    (hmacHex : String → String → String)
    (strategy secret text : String) (m : List (String × Val))
    (hval : strategy = "replace" ∨ strategy = "mask" ∨ strategy = "hash" ∨
      strategy = "encrypt") :
    redact analyze anonymize hmacHex strategy secret ⟨some (Val.vStr text), m⟩ =
      Except.ok ⟨some (Val.vStr (if strategy = "hash" then
          customHashRedaction hmacHex secret text (resolveConflicts (analyze text))
        else anonymize strategy text (resolveConflicts (analyze text)))),
        redactMeta m (resolveConflicts (analyze text)).length strategy⟩ := by
  rcases hval with rfl | rfl | rfl | rfl <;> simp [redact]

/-! Documents as produced by the readers, and the preprocessors, used for the
invariant that metadata carries no redaction keys before the redaction
stage. -/

/-- The document yielded by TextFileReader._read_file. -/
def mkTextFileDoc (content filename path : String) : Document :=
  ⟨some (Val.vStr content),
    [("filename", Val.vStr filename), ("path", Val.vStr path)]⟩

/-- The per-row document yielded by CSVReader.read (content is null; the row
values are strings after None cleanup). -/
def mkCsvRowDoc (source : String) (rowNumber : Nat)
    (rowData : List (String × String)) : Document :=
  ⟨some Val.vNone,
    [("source", Val.vStr source), ("row_number", Val.vNat rowNumber),
      ("original_data", Val.vDict (rowData.map (fun p => (p.1, Val.vStr p.2))))]⟩

/-- The per-row document yielded by XLSXReader.read. -/
def mkXlsxRowDoc (source sheet : String) (rowNumber : Nat)
    (rowData : List (String × String)) : Document :=
  ⟨some Val.vNone,
    [("source", Val.vStr source), ("sheet", Val.vStr sheet),
      ("row_number", Val.vNat rowNumber),
      ("original_data", Val.vDict (rowData.map (fun p => (p.1, Val.vStr p.2))))]⟩

/-- The error kinds of the system, each carrying its message. -/
inductive PyErr : Type where
  | RegistrationError : String → PyErr
  | ReaderError : String → PyErr
  | WriterError : String → PyErr
  | PreprocessorError : String → PyErr
  | PostprocessorError : String → PyErr
  | RedactorError : String → PyErr
  | PipelineError : String → PyErr
  | OtherError : String → PyErr
  deriving DecidableEq

/-- Python str(e): the message the exception carries. -/
def errMessage : PyErr → String
  | PyErr.RegistrationError m => m
  | PyErr.ReaderError m => m
  | PyErr.WriterError m => m
  | PyErr.PreprocessorError m => m
  | PyErr.PostprocessorError m => m
  | PyErr.RedactorError m => m
  | PyErr.PipelineError m => m
  | PyErr.OtherError m => m

/-- Control characters removed by TextCleaner: x00-x08, x0b-x0c, x0e-x1f,
x7f. -/
def isForbiddenControl (c : Char) : Bool :=
  decide (c.toNat ≤ 8) || decide (c.toNat = 11) || decide (c.toNat = 12) ||
    (decide (14 ≤ c.toNat) && decide (c.toNat ≤ 31)) || decide (c.toNat = 127)

/-- Curly double and single quotes to their straight forms. -/
def normalizeQuoteChar (c : Char) : Char :=
  if c = Char.ofNat 8220 ∨ c = Char.ofNat 8221 then Char.ofNat 34
  else if c = Char.ofNat 8216 ∨ c = Char.ofNat 8217 then Char.ofNat 39
  else c

/-- Collapse a run of the same sentence punctuation character to one
occurrence (the regex with a back reference in TextCleaner). -/
def collapsePunct : Option Char → List Char → List Char
  | _, [] => []
  | prev, c :: cs =>
    if (c = '!' ∨ c = '?' ∨ c = '.') ∧ prev = some c then collapsePunct prev cs
    else c :: collapsePunct (some c) cs

/-- TextCleaner content transformation, in source order: control character
removal, optional quote normalization, optional lower casing, repeated
punctuation collapse. -/
def textCleanerContent (lowercase normalizeQuotes : Bool) (s : String) : String :=
  let c1 := s.toList.filter (fun c => !(isForbiddenControl c))
  let c2 := if normalizeQuotes then c1.map normalizeQuoteChar else c1
  let c3 := if lowercase then c2.map Char.toLower else c2
  String.mk (collapsePunct none c3)

/-- TextCleaner.process: requires the content key, cleans the content string
and spreads the rest of the document unchanged.  A non-string content makes
the regex substitution raise, wrapped into a PreprocessorError. -/
def textCleanerProcess (lowercase normalizeQuotes : Bool) (doc : Document) :
    Except PyErr Document :=
  match doc.content with
  | none => Except.error (PyErr.PreprocessorError
      ("Document must contain " ++ squote ++ "content" ++ squote ++ " key"))
  | some (Val.vStr s) =>
    Except.ok ⟨some (Val.vStr (textCleanerContent lowercase normalizeQuotes s)), doc.metadata⟩
  | some _ => Except.error (PyErr.PreprocessorError "Failed to clean text")

/-- Replace every occurrence of a pattern sequence by a replacement, left to
right (Python str.replace). -/
def replaceSeq (pat rep : List Char) : List Char → List Char
  | [] => []
  | c :: cs =>
    if h : pat.isPrefixOf (c :: cs) ∧ pat ≠ [] then
      rep ++ replaceSeq pat rep ((c :: cs).drop pat.length)
    else c :: replaceSeq pat rep cs
termination_by l => l.length
decreasing_by
  · simp only [List.length_drop, List.length_cons]
    have hp : 0 < pat.length := List.length_pos.mpr h.2
    omega
  · simp only [List.length_cons]
    omega

/-- The paragraph placeholder used by WhitespaceNormalizer. -/
def paraPlaceholder : List Char := "<<<PARAGRAPH>>>".toList

/-- Emit a pending newline run: two or more newlines become the placeholder. -/
def emitNl (n : Nat) : List Char :=
  if 2 ≤ n then paraPlaceholder else List.replicate n (Char.ofNat 10)

/-- The regex substitution of two or more newlines by the placeholder; n
counts pending newline characters. -/
def paraSub : Nat → List Char → List Char
  | n, [] => emitNl n
  | n, c :: cs =>
    if c = Char.ofNat 10 then paraSub (n + 1) cs else emitNl n ++ (c :: paraSub 0 cs)

/-- The regex substitution of one or more spaces by a single space. -/
def spaceCollapse : Bool → List Char → List Char
  | _, [] => []
  | prev, c :: cs =>
    if c = ' ' then
      if prev then spaceCollapse true cs else ' ' :: spaceCollapse true cs
    else c :: spaceCollapse false cs

/-- WhitespaceNormalizer content transformation, in source order: tabs to
spaces, line break normalization, paragraph-preserving (or full) whitespace
collapse, final strip. -/
def whitespaceContent (preserveParagraphs : Bool) (s : String) : String :=
  let c1 := s.toList.map (fun c => if c = Char.ofNat 9 then ' ' else c)
  let c2 := replaceSeq [Char.ofNat 13, Char.ofNat 10] [Char.ofNat 10] c1
  let c3 := c2.map (fun c => if c = Char.ofNat 13 then Char.ofNat 10 else c)
  let c4 :=
    if preserveParagraphs then
      replaceSeq paraPlaceholder [Char.ofNat 10, Char.ofNat 10]
        (spaceCollapse false (paraSub 0 c3))
    else collapseWs false c3
  String.mk (pyStripChars c4)

/-- WhitespaceNormalizer.process (same contract as TextCleaner.process). -/
def whitespaceProcess (preserveParagraphs : Bool) (doc : Document) :
    Except PyErr Document :=
  match doc.content with
  | none => Except.error (PyErr.PreprocessorError
      ("Document must contain " ++ squote ++ "content" ++ squote ++ " key"))
  | some (Val.vStr s) =>
    Except.ok ⟨some (Val.vStr (whitespaceContent preserveParagraphs s)), doc.metadata⟩
  | some _ => Except.error (PyErr.PreprocessorError "Failed to normalize whitespace")

/-- Python truthiness of the values that appear in metadata. -/
def truthy : Val → Bool
  | Val.vStr s => !(s.isEmpty)
  | Val.vNat n => !(decide (n = 0))
  | Val.vList l => !(l.isEmpty)
  | Val.vDict d => !(d.isEmpty)
  | Val.vNone => false

/-- FieldSelectorPreprocessor.process: select the configured fields (or every
field when none are configured) out of original_data into
selected_for_redaction and selected_fields, and null the content.
original_data, when present, is the dict produced by the tabular readers; a
missing or empty value returns the document unchanged. -/
def fieldSelectorProcess (fields : List String) (doc : Document) : Document :=
  match dget doc.metadata "original_data" with
  | some (Val.vDict od) =>
    if od.isEmpty then doc
    else
      let selected_fields :=
        if fields.isEmpty then od.map Prod.fst
        else fields.filter (fun f => dhas od f)
      let selected_for_redaction :=
        selected_fields.filterMap (fun f => (dget od f).map (fun v => (f, v)))
      ⟨some Val.vNone,
        dset (dset doc.metadata "selected_for_redaction" (Val.vDict selected_for_redaction))
          "selected_fields" (Val.vList (selected_fields.map Val.vStr))⟩
  | _ => doc

/-- C4: for every document with string content and every valid strategy,
redact succeeds and its output metadata holds redacted_entities (the count of
entities surviving conflict resolution) and redaction_strategy (the strategy
used), while every other metadata key keeps its input value; and before the
redaction stage these two keys are absent: the readers never emit them and
the preprocessors never introduce them. -/
theorem C4_redact_metadata_frame :
    (∀ (analyze : String → List REnt) (anonymize : String → String → List REnt → String)
        (hmacHex : String → String → String) (strategy secret text : String)
        (m : List (String × Val)),
      strategy = "replace" ∨ strategy = "mask" ∨ strategy = "hash" ∨ strategy = "encrypt" →
      ∃ out : Document,
        redact analyze anonymize hmacHex strategy secret ⟨some (Val.vStr text), m⟩ =
            Except.ok out ∧
          dget out.metadata "redacted_entities" =
            some (Val.vNat (resolveConflicts (analyze text)).length) ∧
          dget out.metadata "redaction_strategy" = some (Val.vStr strategy) ∧
          (∀ k, k ≠ "redacted_entities" → k ≠ "redaction_strategy" →
            dget out.metadata k = dget m k)) ∧
    (∀ k, k = "redacted_entities" ∨ k = "redaction_strategy" →
      (∀ content filename path,
        dget (mkTextFileDoc content filename path).metadata k = none) ∧
      (∀ source rowNumber rowData,
        dget (mkCsvRowDoc source rowNumber rowData).metadata k = none) ∧
      (∀ source sheet rowNumber rowData,
        dget (mkXlsxRowDoc source sheet rowNumber rowData).metadata k = none) ∧
      (∀ lc nq doc out, textCleanerProcess lc nq doc = Except.ok out →
        dget out.metadata k = dget doc.metadata k) ∧
      (∀ pp doc out, whitespaceProcess pp doc = Except.ok out →
        dget out.metadata k = dget doc.metadata k) ∧
      (∀ fields doc, dget doc.metadata k = none →
        dget (fieldSelectorProcess fields doc).metadata k = none)) := by
  constructor
  · intro analyze anonymize hmacHex strategy secret text m hval
    refine ⟨_, redact_ok analyze anonymize hmacHex strategy secret text m hval, ?_, ?_, ?_⟩
    · exact dget_redactMeta_entities m _ strategy
    · exact dget_redactMeta_strategy m _ strategy
    · intro k h1 h2
      exact dget_redactMeta_other m _ strategy k h1 h2
  · intro k hk
    have hk1 : k ≠ "selected_for_redaction" := by
      rcases hk with rfl | rfl <;> decide
    have hk2 : k ≠ "selected_fields" := by
      rcases hk with rfl | rfl <;> decide
    refine ⟨?_, ?_, ?_, ?_, ?_, ?_⟩
    · intro content filename path
      rcases hk with rfl | rfl <;> rfl
    · intro source rowNumber rowData
      rcases hk with rfl | rfl <;> rfl
    · intro source sheet rowNumber rowData
      rcases hk with rfl | rfl <;> rfl
    · intro lc nq doc out hout
      unfold textCleanerProcess at hout
      cases hc : doc.content with
      | none => rw [hc] at hout; cases hout
      | some v =>
        rw [hc] at hout
        cases v with
        | vStr s =>
          simp only [Except.ok.injEq] at hout
          rw [← hout]
        | vNat n => cases hout
        | vList l => cases hout
        | vDict d => cases hout
        | vNone => cases hout
    · intro pp doc out hout
      unfold whitespaceProcess at hout
      cases hc : doc.content with
      | none => rw [hc] at hout; cases hout
      | some v =>
        rw [hc] at hout
        cases v with
        | vStr s =>
          simp only [Except.ok.injEq] at hout
          rw [← hout]
        | vNat n => cases hout
        | vList l => cases hout
        | vDict d => cases hout
        | vNone => cases hout
    · intro fields doc hnone
      unfold fieldSelectorProcess
      cases hod : dget doc.metadata "original_data" with
      | none => exact hnone
      | some v =>
        cases v with
        | vDict od =>
          by_cases hemp : od.isEmpty
          · simp [hemp, hnone]
          · simp only [hemp, Bool.false_eq_true, if_neg, not_false_iff]
            rw [dget_dset_ne _ _ _ _ hk2, dget_dset_ne _ _ _ _ hk1]
            exact hnone
        | vStr s => exact hnone
        | vNat n => exact hnone
        | vList l => exact hnone
        | vNone => exact hnone

/-- Witness for C4: the frame property applied to a concrete document with
one metadata key, the replace strategy and a trivial analyzer. -/
theorem C4_witness :
    ∃ out : Document,
      redact (fun _ => []) (fun _ t _ => t) (fun s t => s ++ t) "replace" "key"
          ⟨some (Val.vStr "hi"), [("source", Val.vStr "a.txt")]⟩ = Except.ok out ∧
        dget out.metadata "redacted_entities" =
          some (Val.vNat (resolveConflicts ((fun (_ : String) => ([] : List REnt)) "hi")).length) ∧
        dget out.metadata "redaction_strategy" = some (Val.vStr "replace") ∧
        (∀ k, k ≠ "redacted_entities" → k ≠ "redaction_strategy" →
          dget out.metadata k = dget [("source", Val.vStr "a.txt")] k) :=
  C4_redact_metadata_frame.1 (fun _ => []) (fun _ t _ => t) (fun s t => s ++ t)
    "replace" "key" "hi" [("source", Val.vStr "a.txt")] (Or.inl rfl)

/-- C5 is falsified in its parenthetical: a document whose content key is
present but null does not fail with the missing-content RedactorError; the
content check only tests key presence, and the failure comes from the
analysis call, wrapped generically. -/
theorem C5_counterexample :
    redact (fun _ => []) (fun _ t _ => t) (fun s t => s ++ t) "replace" "key"
        ⟨some Val.vNone, []⟩ =
      Except.error (RedErr.wrapped "Failed to redact document") ∧
    RedErr.wrapped "Failed to redact document" ≠ RedErr.missingContent := by
  exact ⟨rfl, by decide⟩

/-- C5 (amended): a document without the content key fails with the
missing-content RedactorError; a document with string content and a strategy
outside replace, mask, hash, encrypt fails with the unknown-strategy
RedactorError; and a document whose content is present but not a string (in
particular null) never produces the missing-content error. -/
theorem C5_redact_errors_amended :
    (∀ (analyze : String → List REnt) (anonymize : String → String → List REnt → String)
        (hmacHex : String → String → String) (strategy secret : String)
        (m : List (String × Val)),
      redact analyze anonymize hmacHex strategy secret ⟨none, m⟩ =
        Except.error RedErr.missingContent) ∧
    (∀ (analyze : String → List REnt) (anonymize : String → String → List REnt → String)
        (hmacHex : String → String → String) (strategy secret text : String)
        (m : List (String × Val)),
      strategy ≠ "replace" → strategy ≠ "mask" → strategy ≠ "hash" → strategy ≠ "encrypt" →
      redact analyze anonymize hmacHex strategy secret ⟨some (Val.vStr text), m⟩ =
        Except.error (RedErr.unknownStrategy strategy)) ∧
    (∀ (analyze : String → List REnt) (anonymize : String → String → List REnt → String)
        (hmacHex : String → String → String) (strategy secret : String)
        (m : List (String × Val)) (v : Val),
      (∀ s, v ≠ Val.vStr s) →
      redact analyze anonymize hmacHex strategy secret ⟨some v, m⟩ ≠
        Except.error RedErr.missingContent) := by
  refine ⟨?_, ?_, ?_⟩
  · intro analyze anonymize hmacHex strategy secret m
    rfl
  · intro analyze anonymize hmacHex strategy secret text m h1 h2 h3 h4
    simp [redact, h1, h2, h3, h4]
  · intro analyze anonymize hmacHex strategy secret m v hv
    cases v with
    | vStr s => exact absurd rfl (hv s)
    | vNat n => simp [redact]
    | vList l => simp [redact]
    | vDict d => simp [redact]
    | vNone => simp [redact]

/-- Witness for C5 (amended): the unknown-strategy case at the concrete
strategy name delete, and the missing-content case on a document without a
content key. -/
theorem C5_witness :
    redact (fun _ => []) (fun _ t _ => t) (fun s t => s ++ t) "delete" "key"
        ⟨some (Val.vStr "hi"), []⟩ =
      Except.error (RedErr.unknownStrategy "delete") ∧
    redact (fun _ => []) (fun _ t _ => t) (fun s t => s ++ t) "replace" "key" ⟨none, []⟩ =
      Except.error RedErr.missingContent :=
  ⟨C5_redact_errors_amended.2.1 (fun _ => []) (fun _ t _ => t) (fun s t => s ++ t)
      "delete" "key" "hi" [] (by decide) (by decide) (by decide) (by decide),
    C5_redact_errors_amended.1 (fun _ => []) (fun _ t _ => t) (fun s t => s ++ t)
      "replace" "key" []⟩

mutual

/-- Python repr of a value (used by str for containers). -/
def pyRepr : Val → String
  | Val.vStr s => squote ++ s ++ squote
  | Val.vNat n => toString n
  | Val.vNone => "None"
  | Val.vList l => "[" ++ pyReprList l ++ "]"
  | Val.vDict d => "\x7b" ++ pyReprDict d ++ "\x7d"

def pyReprList : List Val → String
  | [] => ""
  | [v] => pyRepr v
  | v :: rest => pyRepr v ++ ", " ++ pyReprList rest

def pyReprDict : List (String × Val) → String
  | [] => ""
  | [(k, v)] => squote ++ k ++ squote ++ ": " ++ pyRepr v
  | (k, v) :: rest => squote ++ k ++ squote ++ ": " ++ pyRepr v ++ ", " ++ pyReprDict rest

end

/-- Python str(): identity on strings, decimal for numbers, None, and repr
for containers. -/
def pyStr : Val → String
  | Val.vStr s => s
  | Val.vNat n => toString n
  | Val.vNone => "None"
  | v => pyRepr v

/-- The per-field loop of Pipeline._redact_fields: each field value becomes a
miniature document (str(value) as content, empty metadata), is redacted, and
its redacted content and redacted-entity count are collected in order. -/
def redactFieldsLoop (analyze : String → List REnt)
    (anonymize : String → String → List REnt → String)
    (hmacHex : String → String → String) (strategy secret : String) :
    List (String × Val) → Except RedErr (List (String × Val) × Nat)
  | [] => Except.ok ([], 0)
  | (f, v) :: rest =>
    match redact analyze anonymize hmacHex strategy secret
        ⟨some (Val.vStr (pyStr v)), []⟩ with
    | Except.error e => Except.error e
    | Except.ok rd =>
      match redactFieldsLoop analyze anonymize hmacHex strategy secret rest with
      | Except.error e => Except.error e
      | Except.ok (rfs, n) =>
        Except.ok ((f, rd.content.getD Val.vNone) :: rfs,
          (match dget rd.metadata "redacted_entities" with
           | some (Val.vNat c) => c
           | _ => 0) + n)

/-- Pipeline._redact_fields: redact each selected field individually and store
redacted_fields and the total redacted_entities in the metadata; the content
is left untouched.  selected_for_redaction, when truthy, is the dict built by
the field selector. -/
def redactFields (analyze : String → List REnt)
    (anonymize : String → String → List REnt → String)
    (hmacHex : String → String → String) (strategy secret : String)
    (doc : Document) : Except RedErr Document :=
  match dget doc.metadata "selected_for_redaction" with
  | some (Val.vDict sel) =>
    if sel.isEmpty then Except.ok doc
    else
      match redactFieldsLoop analyze anonymize hmacHex strategy secret sel with
      | Except.error e => Except.error e
      | Except.ok (rfs, n) =>
        Except.ok ⟨doc.content,
          dset (dset doc.metadata "redacted_fields" (Val.vDict rfs))
            "redacted_entities" (Val.vNat n)⟩
  | _ => Except.ok doc

/-- The redaction dispatch in Pipeline.process: the structured path when the
metadata marks fields as selected for redaction (truthy value), the whole
content otherwise. -/
def pipelineRedactStep (analyze : String → List REnt)
    (anonymize : String → String → List REnt → String)
    (hmacHex : String → String → String) (strategy secret : String)
    (doc : Document) : Except RedErr Document :=
  match dget doc.metadata "selected_for_redaction" with
  | some v =>
    if truthy v then redactFields analyze anonymize hmacHex strategy secret doc
    else redact analyze anonymize hmacHex strategy secret doc
  | none => redact analyze anonymize hmacHex strategy secret doc

/-- What redact produces for one selected field value: the redacted content
and the redacted-entity count of the miniature document holding str(value). -/
def fieldRedaction (analyze : String → List REnt)
    (anonymize : String → String → List REnt → String)
    (hmacHex : String → String → String) (strategy secret : String) (v : Val) :
    Val × Nat :=
  match redact analyze anonymize hmacHex strategy secret
      ⟨some (Val.vStr (pyStr v)), []⟩ with
  | Except.ok rd => (rd.content.getD Val.vNone,
      match dget rd.metadata "redacted_entities" with
      | some (Val.vNat c) => c
      | _ => 0)
  | Except.error _ => (Val.vNone, 0)

theorem redactFieldsLoop_ok (analyze : String → List REnt)
    (anonymize : String → String → List REnt → String)
    (hmacHex : String → String → String) (strategy secret : String)
    (hval : strategy = "replace" ∨ strategy = "mask" ∨ strategy = "hash" ∨
      strategy = "encrypt") (sel : List (String × Val)) :
    redactFieldsLoop analyze anonymize hmacHex strategy secret sel =
      Except.ok
        (sel.map (fun fv =>
          (fv.1, (fieldRedaction analyze anonymize hmacHex strategy secret fv.2).1)),
         (sel.map (fun fv =>
          (fieldRedaction analyze anonymize hmacHex strategy secret fv.2).2)).sum) := by
  induction sel with
  | nil => rfl
  | cons fv rest ih =>
    obtain ⟨f, v⟩ := fv
    have hred := redact_ok analyze anonymize hmacHex strategy secret (pyStr v) [] hval
    simp [redactFieldsLoop, hred, ih, fieldRedaction]

/-- C3: on a document whose metadata holds a non-empty selected_for_redaction
dict, the pipeline takes the structured path and (for a valid strategy)
produces a document with unchanged content, a redacted_fields entry holding
one redacted value per selected field (each field redacted independently as a
miniature document with only str(value) as content), and a redacted_entities
entry holding the sum of the per-field counts. -/
theorem C3_structured_field_redaction (analyze : String → List REnt)
    (anonymize : String → String → List REnt → String)
    (hmacHex : String → String → String) (strategy secret : String)
    (doc : Document) (sel : List (String × Val))
    (hsel : dget doc.metadata "selected_for_redaction" = some (Val.vDict sel))
    (hne : sel ≠ [])
    (hval : strategy = "replace" ∨ strategy = "mask" ∨ strategy = "hash" ∨
      strategy = "encrypt") :
    ∃ out : Document,
      pipelineRedactStep analyze anonymize hmacHex strategy secret doc = Except.ok out ∧
        out.content = doc.content ∧
        dget out.metadata "redacted_fields" =
          some (Val.vDict (sel.map (fun fv =>
            (fv.1, (fieldRedaction analyze anonymize hmacHex strategy secret fv.2).1)))) ∧
        dget out.metadata "redacted_entities" =
          some (Val.vNat ((sel.map (fun fv =>
            (fieldRedaction analyze anonymize hmacHex strategy secret fv.2).2)).sum)) ∧
        (∀ k, k ≠ "redacted_fields" → k ≠ "redacted_entities" →
          dget out.metadata k = dget doc.metadata k) := by
  have hemp : sel.isEmpty = false := by
    cases sel with
    | nil => exact absurd rfl hne
    | cons a l => rfl
  have hloop := redactFieldsLoop_ok analyze anonymize hmacHex strategy secret hval sel
  have hstep : pipelineRedactStep analyze anonymize hmacHex strategy secret doc =
      redactFields analyze anonymize hmacHex strategy secret doc := by
    unfold pipelineRedactStep
    rw [hsel]
    simp [truthy, hemp]
  have hrf : redactFields analyze anonymize hmacHex strategy secret doc =
      Except.ok ⟨doc.content,
        dset (dset doc.metadata "redacted_fields"
            (Val.vDict (sel.map (fun fv =>
              (fv.1, (fieldRedaction analyze anonymize hmacHex strategy secret fv.2).1)))))
          "redacted_entities"
          (Val.vNat ((sel.map (fun fv =>
            (fieldRedaction analyze anonymize hmacHex strategy secret fv.2).2)).sum))⟩ := by
    unfold redactFields
    rw [hsel]
    simp [hemp, hloop]
  refine ⟨_, hstep.trans hrf, rfl, ?_, ?_, ?_⟩
  · rw [dget_dset_ne _ _ _ _ (by decide), dget_dset_self]
  · rw [dget_dset_self]
  · intro k h1 h2
    rw [dget_dset_ne _ _ _ _ h2, dget_dset_ne _ _ _ _ h1]

/-- Witness for C3: a one-field structured document with a trivial analyzer
and the replace strategy. -/
theorem C3_witness :
    ∃ out : Document,
      pipelineRedactStep (fun _ => []) (fun _ t _ => t) (fun s t => s ++ t)
          "replace" "key"
          ⟨some Val.vNone, [("selected_for_redaction", Val.vDict [("Name", Val.vStr "John")])]⟩ =
        Except.ok out ∧
        out.content = some Val.vNone ∧
        dget out.metadata "redacted_fields" =
          some (Val.vDict ([("Name", Val.vStr "John")].map (fun fv =>
            (fv.1, (fieldRedaction (fun _ => []) (fun _ t _ => t) (fun s t => s ++ t)
              "replace" "key" fv.2).1)))) ∧
        dget out.metadata "redacted_entities" =
          some (Val.vNat (([("Name", Val.vStr "John")].map (fun fv =>
            (fieldRedaction (fun _ => []) (fun _ t _ => t) (fun s t => s ++ t)
              "replace" "key" fv.2).2)).sum)) ∧
        (∀ k, k ≠ "redacted_fields" → k ≠ "redacted_entities" →
          dget out.metadata k =
            dget [("selected_for_redaction", Val.vDict [("Name", Val.vStr "John")])] k) :=
  C3_structured_field_redaction (fun _ => []) (fun _ t _ => t) (fun s t => s ++ t)
    "replace" "key"
    ⟨some Val.vNone, [("selected_for_redaction", Val.vDict [("Name", Val.vStr "John")])]⟩
    [("Name", Val.vStr "John")] rfl (by simp) (Or.inl rfl)

/-! The orchestrator of Pipeline.process: per-document stage sequence with
abort on first failure, and the catch-all wrapping of every escaping error
into a PipelineError. -/

/-- The loop body of Pipeline.process for one document: preprocess, redact,
postprocess, write.  The stages are parameters. -/
def oneDoc (pre red post : Document → Except PyErr Document)
    (write : Document → Except PyErr PUnit) (d : Document) : Except PyErr Document :=
  match pre d with
  | Except.error e => Except.error e
  | Except.ok d1 =>
    match red d1 with
    | Except.error e => Except.error e
    | Except.ok d2 =>
      match post d2 with
      | Except.error e => Except.error e
      | Except.ok d3 =>
        match write d3 with
        | Except.error e => Except.error e
        | Except.ok _ => Except.ok d3

/-- The document loop of Pipeline.process: fully process document i before
touching document i+1, abort on the first failure, collect processed
documents for the return value. -/
def processLoop (pre red post : Document → Except PyErr Document)
    (write : Document → Except PyErr PUnit) : List Document → Except PyErr (List Document)
  | [] => Except.ok []
  | d :: rest =>
    match oneDoc pre red post write d with
    | Except.error e => Except.error e
    | Except.ok d3 =>
      match processLoop pre red post write rest with
      | Except.error e => Except.error e
      | Except.ok others => Except.ok (d3 :: others)

/-- Pipeline.process: the whole run sits in one try block whose handler turns
any escaping exception e into PipelineError with the message
Pipeline processing failed: str(e). -/
def pipelineProcess (pre red post : Document → Except PyErr Document)
    (write : Document → Except PyErr PUnit) (docs : List Document) :
    Except PyErr (List Document) :=
  match processLoop pre red post write docs with
  | Except.ok r => Except.ok r
  | Except.error e =>
    Except.error (PyErr.PipelineError ("Pipeline processing failed: " ++ errMessage e))

/-- C6 is falsified in its pass-through half: a stage failure that is already
a defined error kind (here a RedactorError) does not surface unmodified; the
pipeline returns it re-wrapped as a PipelineError. -/
theorem C6_counterexample :
    pipelineProcess (fun _ => Except.error (PyErr.RedactorError "boom"))
        (fun d => Except.ok d) (fun d => Except.ok d) (fun _ => Except.ok PUnit.unit)
        [⟨none, []⟩] =
      Except.error (PyErr.PipelineError "Pipeline processing failed: boom") ∧
    (Except.error (PyErr.PipelineError "Pipeline processing failed: boom") :
        Except PyErr (List Document)) ≠
      Except.error (PyErr.RedactorError "boom") := by
  constructor
  · rfl
  · intro hc
    cases hc

/-- C6 (amended): whatever the kind of the first stage failure (a defined
error kind or any other), the run aborts at the first failing document,
ignoring the remaining documents, and the caller receives the failure wrapped
in a PipelineError carrying the original message. -/
theorem C6_pipeline_wraps_all (pre red post : Document → Except PyErr Document)
    (write : Document → Except PyErr PUnit) (l1 : List Document) (d : Document)
    (l2 : List Document) (e : PyErr)
    (h1 : ∀ x ∈ l1, ∃ y, oneDoc pre red post write x = Except.ok y)
    (h2 : oneDoc pre red post write d = Except.error e) :
    pipelineProcess pre red post write (l1 ++ d :: l2) =
      Except.error (PyErr.PipelineError ("Pipeline processing failed: " ++ errMessage e)) := by
  have hloop : processLoop pre red post write (l1 ++ d :: l2) = Except.error e := by
    induction l1 with
    | nil =>
      simp only [List.nil_append, processLoop, h2]
    | cons x rest ih =>
      rcases h1 x (List.mem_cons_self x rest) with ⟨y, hy⟩
      have ihr := ih (fun z hz => h1 z (List.mem_cons_of_mem x hz))
      have ihr2 : processLoop pre red post write (rest.append (d :: l2)) = Except.error e := ihr
      simp only [List.cons_append, processLoop, hy, ihr, ihr2]
  unfold pipelineProcess
  rw [hloop]

/-- Witness for C6 (amended): a two-document run whose second document fails
in the writer with an unexpected error kind; the caller sees the wrapped
PipelineError. -/
theorem C6_witness :
    pipelineProcess (fun d => Except.ok d) (fun d => Except.ok d) (fun d => Except.ok d)
        (fun d => match d.content with
          | none => Except.error (PyErr.OtherError "disk full")
          | some _ => Except.ok PUnit.unit)
        ([⟨some (Val.vStr "a"), []⟩] ++ ⟨none, []⟩ :: [⟨some (Val.vStr "b"), []⟩]) =
      Except.error (PyErr.PipelineError "Pipeline processing failed: disk full") :=
  C6_pipeline_wraps_all (fun d => Except.ok d) (fun d => Except.ok d) (fun d => Except.ok d)
    (fun d => match d.content with
      | none => Except.error (PyErr.OtherError "disk full")
      | some _ => Except.ok PUnit.unit)
    [⟨some (Val.vStr "a"), []⟩] ⟨none, []⟩ [⟨some (Val.vStr "b"), []⟩]
    (PyErr.OtherError "disk full")
    (by
      intro x hx
      rcases List.mem_singleton.mp hx with rfl
      exact ⟨⟨some (Val.vStr "a"), []⟩, rfl⟩)
    rfl

/-! DictMergerPostprocessor: merge the preserved original fields with the
redacted values of the selected fields into redacted_data. -/

/-- One step of the merging loop of DictMergerPostprocessor.process: a
selected field present in redacted_fields overwrites the accumulator.  (The
selected field names are strings; a non-string value is never a key of the
string-keyed redacted_fields dict.) -/
def mergeUpd (rf : List (String × Val)) (acc : List (String × Val)) (fv : Val) :
    List (String × Val) :=
  match fv with
  | Val.vStr f =>
    match dget rf f with
    | some v => dset acc f v
    | none => acc
  | _ => acc

/-- DictMergerPostprocessor.process with its preserve_unselected setting:
start from a copy of original_data (or from an empty dict), overwrite every
selected field that has a redacted value, and store the result under
redacted_data.  An empty redacted_fields returns the document unchanged. -/
def dictMergerProcess (preserveUnselected : Bool) (doc : Document) : Document :=
  let od := match dget doc.metadata "original_data" with
    | some (Val.vDict d) => d
    | _ => []
  let sf := match dget doc.metadata "selected_fields" with
    | some (Val.vList l) => l
    | _ => []
  let rf := match dget doc.metadata "redacted_fields" with
    | some (Val.vDict d) => d
    | _ => []
  if rf.isEmpty then doc
  else
    let base := if preserveUnselected then od else []
    let merged := sf.foldl (mergeUpd rf) base
    ⟨doc.content, dset doc.metadata "redacted_data" (Val.vDict merged)⟩

theorem mergeFold_dget (rf : List (String × Val)) (sf : List Val) :
    ∀ (base : List (String × Val)) (k : String),
      (Val.vStr k ∈ sf ∧ dhas rf k = true →
        dget (sf.foldl (mergeUpd rf) base) k = dget rf k) ∧
      (Val.vStr k ∉ sf ∨ dhas rf k = false →
        dget (sf.foldl (mergeUpd rf) base) k = dget base k) := by
  induction sf with
  | nil =>
    intro base k
    constructor
    · rintro ⟨hmem, _⟩
      simp at hmem
    · intro _
      rfl
  | cons fv rest ih =>
    intro base k
    simp only [List.foldl_cons]
    have ihb := ih (mergeUpd rf base fv) k
    constructor
    · rintro ⟨hmem, hhas⟩
      rcases List.mem_cons.mp hmem with heq | hmem2
      · by_cases hrest : Val.vStr k ∈ rest
        · exact ihb.1 ⟨hrest, hhas⟩
        · rw [ihb.2 (Or.inl hrest)]
          rw [← heq]
          rcases Option.isSome_iff_exists.mp (by simpa [dhas] using hhas) with ⟨v, hv⟩
          simp only [mergeUpd, hv]
          rw [dget_dset_self]
      · exact ihb.1 ⟨hmem2, hhas⟩
    · intro hno
      have hnotk : Val.vStr k ∉ rest ∨ dhas rf k = false := by
        rcases hno with h' | h'
        · exact Or.inl (fun hc => h' (List.mem_cons_of_mem fv hc))
        · exact Or.inr h'
      rw [ihb.2 hnotk]
      cases fv with
      | vStr f =>
        cases hrf : dget rf f with
        | none => simp [mergeUpd, hrf]
        | some v =>
          have hkf : k ≠ f := by
            intro hc
            subst hc
            rcases hno with h' | h'
            · exact h' (List.mem_cons_self _ _)
            · rw [dhas, hrf] at h'
              simp at h'
          simp only [mergeUpd, hrf]
          rw [dget_dset_ne _ _ _ _ hkf]
      | vNat n => rfl
      | vList l => rfl
      | vDict d => rfl
      | vNone => rfl

/-- C7: with preserve_unselected enabled, for a document carrying
original_data, selected_fields and a non-empty redacted_fields, the merger
produces a redacted_data dict that has an entry for every key of
original_data; each original key selected and redacted carries its
redacted_fields value, every other original key carries its original
value. -/
theorem C7_dict_merger_roundtrip (doc : Document) (od : List (String × Val))
    (sfv : List Val) (rf : List (String × Val))
    (hod : dget doc.metadata "original_data" = some (Val.vDict od))
    (hsf : dget doc.metadata "selected_fields" = some (Val.vList sfv))
    (hrf : dget doc.metadata "redacted_fields" = some (Val.vDict rf))
    (hne : rf ≠ []) :
    dget (dictMergerProcess true doc).metadata "redacted_data" =
      some (Val.vDict (sfv.foldl (mergeUpd rf) od)) ∧
    (∀ k, dhas od k = true → dhas (sfv.foldl (mergeUpd rf) od) k = true) ∧
    (∀ k, dhas od k = true → Val.vStr k ∈ sfv → dhas rf k = true →
      dget (sfv.foldl (mergeUpd rf) od) k = dget rf k) ∧
    (∀ k, dhas od k = true → (Val.vStr k ∉ sfv ∨ dhas rf k = false) →
      dget (sfv.foldl (mergeUpd rf) od) k = dget od k) := by
  have hemp : rf.isEmpty = false := by
    cases rf with
    | nil => exact absurd rfl hne
    | cons a l => rfl
  have hproc : dictMergerProcess true doc =
      ⟨doc.content, dset doc.metadata "redacted_data"
        (Val.vDict (sfv.foldl (mergeUpd rf) od))⟩ := by
    unfold dictMergerProcess
    rw [hod, hsf, hrf]
    simp [hemp]
  refine ⟨?_, ?_, ?_, ?_⟩
  · rw [hproc]
    exact dget_dset_self _ _ _
  · intro k hk
    by_cases hc : Val.vStr k ∈ sfv ∧ dhas rf k = true
    · rw [dhas, (mergeFold_dget rf sfv od k).1 hc]
      exact hc.2
    · have hc2 : Val.vStr k ∉ sfv ∨ dhas rf k = false := by
        by_cases h1 : Val.vStr k ∈ sfv
        · right
          cases h2 : dhas rf k
          · rfl
          · exact absurd ⟨h1, h2⟩ hc
        · exact Or.inl h1
      rw [dhas, (mergeFold_dget rf sfv od k).2 hc2]
      exact hk
  · intro k _ h1 h2
    exact (mergeFold_dget rf sfv od k).1 ⟨h1, h2⟩
  · intro k _ h1
    exact (mergeFold_dget rf sfv od k).2 h1

/-- Witness for C7: a two-field row where only Name was selected and
redacted. -/
theorem C7_witness :
    dget (dictMergerProcess true
        ⟨some Val.vNone,
          [("original_data", Val.vDict [("ID", Val.vStr "1"), ("Name", Val.vStr "John")]),
            ("selected_fields", Val.vList [Val.vStr "Name"]),
            ("redacted_fields", Val.vDict [("Name", Val.vStr "tok")])]⟩).metadata
        "redacted_data" =
      some (Val.vDict (([Val.vStr "Name"] : List Val).foldl
        (mergeUpd [("Name", Val.vStr "tok")])
        [("ID", Val.vStr "1"), ("Name", Val.vStr "John")])) ∧
    (∀ k, dhas [("ID", Val.vStr "1"), ("Name", Val.vStr "John")] k = true →
      dhas (([Val.vStr "Name"] : List Val).foldl (mergeUpd [("Name", Val.vStr "tok")])
        [("ID", Val.vStr "1"), ("Name", Val.vStr "John")]) k = true) := by
  have h := C7_dict_merger_roundtrip
    ⟨some Val.vNone,
      [("original_data", Val.vDict [("ID", Val.vStr "1"), ("Name", Val.vStr "John")]),
        ("selected_fields", Val.vList [Val.vStr "Name"]),
        ("redacted_fields", Val.vDict [("Name", Val.vStr "tok")])]⟩
    [("ID", Val.vStr "1"), ("Name", Val.vStr "John")] [Val.vStr "Name"]
    [("Name", Val.vStr "tok")] rfl rfl rfl (by simp)
  exact ⟨h.1, h.2.1⟩

/-! The generic ComponentRegistry of registry.py, one instance per component
family; the stored constructors are abstracted by the type parameter. -/

/-- A component registry: the family name used in messages, and the
name-to-constructor mapping. -/
structure ComponentRegistry (α : Type _) : Type _ where
  componentType : String
  registry : List (String × α)

/-- The string comparison of Python sorted: lexicographic by code point. -/
def strLt (a b : String) : Bool := @decide _ (String.decLt a b)

theorem strLt_true_iff (a b : String) : strLt a b = true ↔ a < b := by
  constructor
  · intro h
    have hp : @LT.lt String String.instLT a b := @of_decide_eq_true _ (String.decLt a b) h
    have hp2 : List.lt a.data b.data := hp
    exact String.lt_iff_toList_lt.mpr ((List.lt_iff_lex_lt a.data b.data).mp hp2)
  · intro h
    have hp : List.lt a.data b.data := (List.lt_iff_lex_lt a.data b.data).mpr
      (String.lt_iff_toList_lt.mp h)
    have hp2 : @LT.lt String String.instLT a b := hp
    exact @decide_eq_true _ (String.decLt a b) hp2

/-- ComponentRegistry.list_available: all registered names, sorted. -/
def listAvailable {α : Type _} (r : ComponentRegistry α) : List String :=
  isortBy strLt (r.registry.map Prod.fst)

/-- The message of the not-found RegistrationError of ComponentRegistry.get:
it names the requested component and lists the sorted registered names (or
none). -/
def notFoundMessage {α : Type _} (r : ComponentRegistry α) (name : String) : String :=
  let avail := String.intercalate ", " (listAvailable r)
  r.componentType ++ " " ++ squote ++ name ++ squote ++ " not found. Available: " ++
    (if avail = "" then "none" else avail)

/-- ComponentRegistry.get: the registered constructor, or the not-found
RegistrationError. -/
def rget {α : Type _} (r : ComponentRegistry α) (name : String) : Except PyErr α :=
  match dget r.registry name with
  | none => Except.error (PyErr.RegistrationError (notFoundMessage r name))
  | some c => Except.ok c

/-- C9: get returns the registered constructor for every registered name, and
fails for every unregistered name with the RegistrationError whose message
names the requested name and lists all currently registered names of that
registry in sorted order (listAvailable is a sorted permutation of the
registered names). -/
theorem C9_registry_get {α : Type _} (r : ComponentRegistry α) (name : String) :
    (∀ c, dget r.registry name = some c → rget r name = Except.ok c) ∧
    (dget r.registry name = none →
      rget r name = Except.error (PyErr.RegistrationError (notFoundMessage r name))) ∧
    (listAvailable r).Perm (r.registry.map Prod.fst) ∧
    (listAvailable r).Pairwise (fun a b => a ≤ b) := by
  refine ⟨?_, ?_, ?_, ?_⟩
  · intro c hc
    unfold rget
    rw [hc]
  · intro hc
    unfold rget
    rw [hc]
  · exact isortBy_perm _ _
  · refine isortBy_pairwise (R := fun a b : String => a ≤ b) strLt ?_ ?_ ?_ _
    · intro a b c h1 h2
      exact le_trans h1 h2
    · intro a b hab
      exact le_of_lt ((strLt_true_iff a b).mp hab)
    · intro a b hab
      refine le_of_not_lt ?_
      intro hc
      rw [(strLt_true_iff a b).mpr hc] at hab
      cases hab

/-- Witness for C9: a concrete two-entry reader registry; lookup of a
registered name returns its constructor, lookup of an unregistered name
returns the not-found error whose message lists both names in sorted order. -/
theorem C9_witness :
    rget (⟨"reader", [("text_file", 1), ("csv_file", 2)]⟩ : ComponentRegistry Nat)
        "csv_file" = Except.ok 2 ∧
    rget (⟨"reader", [("text_file", 1), ("csv_file", 2)]⟩ : ComponentRegistry Nat)
        "nope" =
      Except.error (PyErr.RegistrationError
        (notFoundMessage
          (⟨"reader", [("text_file", 1), ("csv_file", 2)]⟩ : ComponentRegistry Nat) "nope")) ∧
    notFoundMessage
        (⟨"reader", [("text_file", 1), ("csv_file", 2)]⟩ : ComponentRegistry Nat) "nope" =
      "reader " ++ squote ++ "nope" ++ squote ++
        " not found. Available: csv_file, text_file" :=
  ⟨(C9_registry_get (⟨"reader", [("text_file", 1), ("csv_file", 2)]⟩ :
      ComponentRegistry Nat) "csv_file").1 2 rfl,
    ((C9_registry_get (⟨"reader", [("text_file", 1), ("csv_file", 2)]⟩ :
      ComponentRegistry Nat) "nope").2.1 rfl),
    rfl⟩

/-- Selecting every key of a duplicate-free dict re-extracts the dict
itself. -/
theorem selectAll_eq (od : List (String × Val)) (hnd : (od.map Prod.fst).Nodup) :
    (od.map Prod.fst).filterMap (fun f => (dget od f).map (fun v => (f, v))) = od := by
  induction od with
  | nil => rfl
  | cons p rest ih =>
    obtain ⟨k, v⟩ := p
    have hk : k ∉ rest.map Prod.fst := (List.nodup_cons.mp (by simpa using hnd)).1
    have hrest : ∀ f ∈ rest.map Prod.fst,
        ((fun f => (dget ((k, v) :: rest) f).map (fun w => (f, w))) f) =
          ((fun f => (dget rest f).map (fun w => (f, w))) f) := by
      intro f hf
      have hkf : k ≠ f := fun hc => hk (hc ▸ hf)
      simp [dget, hkf]
    have hdg : dget ((k, v) :: rest) k = some v := by simp [dget]
    have ih2 := ih (List.nodup_cons.mp (by simpa using hnd)).2
    simp only [Option.map] at hrest ih2
    simp only [List.map_cons, List.filterMap_cons, hdg, Option.map]
    rw [List.filterMap_congr hrest, ih2]

/-- C10: with an empty configured field list and a non-empty original_data,
the field selector selects every field of the row: selected_fields is the
list of all keys, selected_for_redaction maps each key to its original value,
and the content becomes null. -/
theorem C10_field_selector_selects_all (doc : Document) (od : List (String × Val))
    (hod : dget doc.metadata "original_data" = some (Val.vDict od))
    (hne : od ≠ [])
    (hnd : (od.map Prod.fst).Nodup) :
    (fieldSelectorProcess [] doc).content = some Val.vNone ∧
    dget (fieldSelectorProcess [] doc).metadata "selected_fields" =
      some (Val.vList ((od.map Prod.fst).map Val.vStr)) ∧
    dget (fieldSelectorProcess [] doc).metadata "selected_for_redaction" =
      some (Val.vDict od) := by
  have hemp : od.isEmpty = false := by
    cases od with
    | nil => exact absurd rfl hne
    | cons a l => rfl
  have hproc : fieldSelectorProcess [] doc =
      ⟨some Val.vNone,
        dset (dset doc.metadata "selected_for_redaction" (Val.vDict od))
          "selected_fields" (Val.vList ((od.map Prod.fst).map Val.vStr))⟩ := by
    unfold fieldSelectorProcess
    rw [hod]
    simp [hemp, selectAll_eq od hnd]
  rw [hproc]
  refine ⟨rfl, ?_, ?_⟩
  · exact dget_dset_self _ _ _
  · rw [dget_dset_ne _ _ _ _ (by decide)]
    exact dget_dset_self _ _ _

/-- Witness for C10: a concrete two-field row with no configured fields. -/
theorem C10_witness :
    (fieldSelectorProcess []
        ⟨some Val.vNone,
          [("original_data", Val.vDict [("A", Val.vStr "1"), ("B", Val.vStr "2")])]⟩).content =
      some Val.vNone ∧
    dget (fieldSelectorProcess []
        ⟨some Val.vNone,
          [("original_data", Val.vDict [("A", Val.vStr "1"), ("B", Val.vStr "2")])]⟩).metadata
        "selected_fields" =
      some (Val.vList (((([("A", Val.vStr "1"), ("B", Val.vStr "2")] :
        List (String × Val)).map Prod.fst)).map Val.vStr)) ∧
    dget (fieldSelectorProcess []
        ⟨some Val.vNone,
          [("original_data", Val.vDict [("A", Val.vStr "1"), ("B", Val.vStr "2")])]⟩).metadata
        "selected_for_redaction" =
      some (Val.vDict [("A", Val.vStr "1"), ("B", Val.vStr "2")]) :=
  C10_field_selector_selects_all
    ⟨some Val.vNone,
      [("original_data", Val.vDict [("A", Val.vStr "1"), ("B", Val.vStr "2")])]⟩
    [("A", Val.vStr "1"), ("B", Val.vStr "2")] rfl (by simp) (by decide)

end Scruby
